import Mathlib

/-!
Shallow embedding of `src/alloy_migrator/__init__.py` (class
`PromtailToAlloyMigrator`): the Promtail→Alloy configuration translator.
Python `dict`/`list`/`str` value trees are modelled by the mutual
inductive `Value`/`Fields`/`Items`; pipeline stages by `Stage`/`Stages`.
Ordered dicts are association chains in insertion order, matching
Python 3.7+ dict semantics.  Fallible code (`client['url']` raising
`KeyError`) is modelled with `Except`.
-/

mutual
/-- A Python value tree as consumed by the formatter: scalar, dict or list. -/
inductive Value where
  | vstr (s : String)
  | vint (n : Int)
  | vbool (b : Bool)
  | vnull
  | vmap (fields : Fields)
  | vlist (items : Items)

/-- An ordered dict (insertion order), as an association chain. -/
inductive Fields where
  | nil
  | cons (key : String) (val : Value) (rest : Fields)

/-- An ordered list of values. -/
inductive Items where
  | nil
  | cons (val : Value) (rest : Items)
end

namespace Fields

/-- First value stored under `key`, like Python `d[key]` / `key in d`. -/
def lookup : Fields → String → Option Value
  | .nil, _ => none
  | .cons k v rest, key => if k = key then some v else rest.lookup key

def toList : Fields → List (String × Value)
  | .nil => []
  | .cons k v rest => (k, v) :: rest.toList

end Fields

namespace Items

def length : Items → Nat
  | .nil => 0
  | .cons _ rest => 1 + rest.length

/-- Python `all(isinstance(item, dict) for item in value)`; true on `[]`. -/
def allMaps : Items → Bool
  | .nil => true
  | .cons v rest =>
    (match v with
     | .vmap _ => true
     | _ => false) && rest.allMaps

def toList : Items → List Value
  | .nil => []
  | .cons v rest => v :: rest.toList

end Items

def fieldsOfList : List (String × Value) → Fields
  | [] => .nil
  | (k, v) :: rest => .cons k v (fieldsOfList rest)

def itemsOfList : List Value → Items
  | [] => .nil
  | v :: rest => .cons v (itemsOfList rest)

/-- Four-digit lowercase hex escape, as in Python json `'\\u%04x'`. -/
def uEscape (n : Nat) : String :=
  "\\u" ++ String.mk [Nat.digitChar (n / 4096 % 16), Nat.digitChar (n / 256 % 16),
    Nat.digitChar (n / 16 % 16), Nat.digitChar (n % 16)]

/-- One character of Python `json.dumps` string escaping (`ensure_ascii=True`):
    quote, backslash and the named control escapes, `\\uXXXX` for other
    characters outside `0x20`–`0x7e`, surrogate pairs beyond the BMP. -/
def jsonEscapeChar (c : Char) : String :=
  if c = '"' then "\\\""
  else if c = '\\' then "\\\\"
  else if c = '\n' then "\\n"
  else if c = '\t' then "\\t"
  else if c = '\r' then "\\r"
  else if c.toNat = 8 then "\\b"
  else if c.toNat = 12 then "\\f"
  else if c.toNat < 32 || c.toNat > 126 then
    if c.toNat < 65536 then uEscape c.toNat
    else uEscape (55296 + (c.toNat - 65536) / 1024) ++ uEscape (56320 + (c.toNat - 65536) % 1024)
  else String.singleton c

/-- Concatenation of the escapes of each character (`''.join`). -/
def escapeAll : List Char → String
  | [] => ""
  | c :: rest => jsonEscapeChar c ++ escapeAll rest

/-- Python `json.dumps` on a string. -/
def jsonQuote (s : String) : String :=
  "\"" ++ escapeAll s.data ++ "\""

/-- Python `sep.join(parts)`. -/
def joinSep (sep : String) : List String → String
  | [] => ""
  | [x] => x
  | x :: rest => x ++ sep ++ joinSep sep rest

mutual
/-- Python `json.dumps` on a value tree (default separators `", "`, `": "`). -/
def jsonDumps : Value → String
  | .vstr s => jsonQuote s
  | .vint n => n.repr
  | .vbool b => if b then "true" else "false"
  | .vnull => "null"
  | .vmap f => "\x7b" ++ joinSep ", " (jsonFieldStrs f) ++ "\x7d"
  | .vlist l => "[" ++ joinSep ", " (jsonItemStrs l) ++ "]"
def jsonFieldStrs : Fields → List String
  | .nil => []
  | .cons k v rest => (jsonQuote k ++ ": " ++ jsonDumps v) :: jsonFieldStrs rest
def jsonItemStrs : Items → List String
  | .nil => []
  | .cons v rest => jsonDumps v :: jsonItemStrs rest
end

/-- Python `str(x)` / f-string interpolation, for the scalar tags that reach
    it in `_format_config_value` (only the `stage['type']` strings do). -/
def pyStr : Value → String
  | .vstr s => s
  | .vint n => n.repr
  | .vbool b => if b then "True" else "False"
  | .vnull => "None"
  | v => jsonDumps v

/-- Python `s.startswith(p)`, computed on the character lists. -/
def strStartsWith (s p : String) : Bool :=
  p.data.isPrefixOf s.data

/-- `value.startswith(('local.', 'loki.', 'prometheus.'))` test used for
    scalar component references (line 452 of the source). -/
def startsWithCompRef (s : String) : Bool :=
  strStartsWith s "local." || strStartsWith s "loki." || strStartsWith s "prometheus."

/-- One `forward_to` element: unquoted when it starts with `loki.` or
    `prometheus.`, else `json.dumps` (lines 443–448). -/
def forwardRefOrQuote : Value → String
  | .vstr s =>
    if strStartsWith s "loki." || strStartsWith s "prometheus." then s else jsonQuote s
  | v => jsonDumps v

def forwardRefs : Items → List String
  | .nil => []
  | .cons v rest => forwardRefOrQuote v :: forwardRefs rest

/-- `f'{k} = {json.dumps(v)}'` items of the special `labels`-style
    single-attribute dict rendering (lines 406–408). -/
def labelItems : Fields → List String
  | .nil => []
  | .cons k v rest => (k ++ " = " ++ jsonDumps v) :: labelItems rest

/-- Inner lines of a dict-valued field of a structured stage (lines 394–395). -/
def innerFieldLines (indentStr : String) : Fields → List String
  | .nil => []
  | .cons kk vv rest =>
    (indentStr ++ "    " ++ kk ++ " = " ++ jsonDumps vv) :: innerFieldLines indentStr rest

/-- Non-`type` fields of one structured stage dict (lines 390–398). -/
def stageFieldLines (indentStr : String) : Fields → List String
  | .nil => []
  | .cons k v rest =>
    (if k = "type" then []
     else
       match v with
       | .vmap mm =>
         [indentStr ++ "  " ++ k ++ " = \x7b"]
           ++ innerFieldLines indentStr mm
           ++ [indentStr ++ "  \x7d"]
       | _ => [indentStr ++ "  " ++ k ++ " = " ++ jsonDumps v])
      ++ stageFieldLines indentStr rest

/-- The `stages` list of a `loki.process` component (lines 384–400):
    each dict item with a `type` tag becomes a block, others are skipped. -/
def stagesValueLines (indentStr : String) : Items → List String
  | .nil => []
  | .cons stage rest =>
    (match stage with
     | .vmap f =>
       match f.lookup "type" with
       | some t =>
         [indentStr ++ pyStr t ++ " \x7b"]
           ++ stageFieldLines indentStr f
           ++ [indentStr ++ "\x7d", ""]
       | none => []
     | _ => []) ++ stagesValueLines indentStr rest

/-- Fields of the single-element record-list rendering (lines 426–430). -/
def recordFieldLines (indentStr : String) : Fields → List String
  | .nil => []
  | .cons k v rest =>
    (indentStr ++ "  " ++ k ++ " = " ++ jsonDumps v ++ ",") :: recordFieldLines indentStr rest

/-- Fields of one record in the multi-element record-list rendering (line 438). -/
def recordFieldLines4 (indentStr : String) : Fields → List String
  | .nil => []
  | .cons k v rest =>
    (indentStr ++ "    " ++ k ++ " = " ++ jsonDumps v ++ ",") :: recordFieldLines4 indentStr rest

/-- Items of the multi-element record-list rendering (lines 434–440). -/
def recordItemLines (indentStr : String) : Items → List String
  | .nil => []
  | .cons item rest =>
    [indentStr ++ "  \x7b"]
      ++ (match item with
          | .vmap f => recordFieldLines4 indentStr f
          | _ => [])
      ++ [indentStr ++ "  \x7d,"]
      ++ recordItemLines indentStr rest

mutual
/-- `_format_config_value(key, value, indent)` (lines 379–458), returning the
    list of emitted lines.  Branch order follows the source: the `stages`
    list special case, dicts (attribute form for `labels`/`external_labels`,
    block form otherwise, an empty-dict attribute when empty), lists (record
    lists, `forward_to`, JSON fallback), reference strings, JSON scalars. -/
def formatConfigValue (key : String) (value : Value) (indent : Nat) : List String :=
  let indentStr := String.mk (List.replicate indent ' ')
  match value with
  | .vlist items =>
    if key = "stages" then
      stagesValueLines indentStr items
    else if items.allMaps then
      if items.length = 1 then
        match items with
        | .cons (.vmap f) _ =>
          [indentStr ++ key ++ " = [\x7b"]
            ++ recordFieldLines indentStr f
            ++ [indentStr ++ "\x7d]"]
        | _ => []  -- unreachable: `allMaps` holds and the length is 1
      else
        [indentStr ++ key ++ " = ["]
          ++ recordItemLines indentStr items
          ++ [indentStr ++ "]"]
    else if key = "forward_to" then
      [indentStr ++ key ++ " = [" ++ joinSep ", " (forwardRefs items) ++ "]"]
    else
      [indentStr ++ key ++ " = " ++ jsonDumps (.vlist items)]
  | .vmap f =>
    if key = "labels" || key = "external_labels" then
      match f with
      | .nil => [indentStr ++ key ++ " = \x7b\x7d"]
      | _ =>
        [indentStr ++ key ++ " = \x7b",
         indentStr ++ "  " ++ joinSep ", " (labelItems f) ++ ",",
         indentStr ++ "\x7d"]
    else
      match f with
      | .nil => [indentStr ++ key ++ " = \x7b\x7d"]
      | _ => [indentStr ++ key ++ " \x7b"] ++ formatFields f (indent + 2) ++ [indentStr ++ "\x7d"]
  | .vstr s =>
    if startsWithCompRef s then [indentStr ++ key ++ " = " ++ s]
    else [indentStr ++ key ++ " = " ++ jsonQuote s]
  | v => [indentStr ++ key ++ " = " ++ jsonDumps v]
def formatFields : Fields → Nat → List String
  | .nil, _ => []
  | .cons k v rest, indent => formatConfigValue k v indent ++ formatFields rest indent
end

/-- A built Alloy component: `{'type': ..., 'id': ..., 'config': {...}}`. -/
structure Component where
  type : String
  id : String
  config : List (String × Value)

/-- Fields of one relabel rule block (lines 369–370). -/
def ruleFieldLines : Fields → List String
  | .nil => []
  | .cons k v rest => ("    " ++ k ++ " = " ++ jsonDumps v) :: ruleFieldLines rest

/-- The `_rules` special rendering: one `rule { ... }` block per entry,
    blank-line separated (lines 366–372). -/
def ruleLines : Items → List String
  | .nil => []
  | .cons rule rest =>
    ["  rule \x7b"]
      ++ (match rule with
          | .vmap f => ruleFieldLines f
          | _ => [])
      ++ ["  \x7d", ""]
      ++ ruleLines rest

/-- Body lines of a component's config dict (lines 364–374). -/
def configLines : List (String × Value) → List String
  | [] => []
  | (key, value) :: rest =>
    (if key = "_rules" then
       match value with
       | .vlist items => ruleLines items
       | _ => []
     else formatConfigValue key value 2) ++ configLines rest

/-- `_format_component` (lines 359–377). -/
def formatComponent (c : Component) : List String :=
  [c.type ++ " \"" ++ c.id ++ "\" \x7b"] ++ configLines c.config ++ ["\x7d"]

/-- `_generate_alloy_config` (lines 349–357): blank line after each component,
    all joined with newlines. -/
def generateAlloyConfig (comps : List Component) : String :=
  joinSep "\n" (comps.map (fun c => formatComponent c ++ [""])).flatten

mutual
/-- One Promtail pipeline stage (`PipelineStep`): a tagged variant over the
    kinds dispatched in `_convert_single_stage` / `_convert_stage_to_dict`.
    `Option` fields model keys that may be absent from the stage's dict. -/
inductive Stage where
  | regex (expression : String)
  | sjson (source : Option String) (expressions : Option (List (String × String)))
  | labels (values : List (String × Option String))
  | output (source : String)
  | template (source tmpl : String)
  | smatch (selector pipeline_name action : Option String) (stages : OStages)
  | metrics
  | unknown

/-- Presence or absence of the nested `stages` key of a match stage. -/
inductive OStages where
  | none
  | some (ss : Stages)

/-- An ordered list of pipeline stages. -/
inductive Stages where
  | nil
  | cons (s : Stage) (rest : Stages)
end

def Stages.isNil : Stages → Bool
  | .nil => true
  | .cons _ _ => false

def stagesOfList : List Stage → Stages
  | [] => .nil
  | s :: rest => .cons s (stagesOfList rest)

def fieldsOfStrs : List (String × String) → Fields
  | [] => .nil
  | (k, v) :: rest => .cons k (.vstr v) (fieldsOfStrs rest)

/-- Label dict as a value tree; a Python `None` value becomes JSON `null`. -/
def fieldsOfLabelVals : List (String × Option String) → Fields
  | [] => .nil
  | (k, Option.some v) :: rest => .cons k (.vstr v) (fieldsOfLabelVals rest)
  | (k, Option.none) :: rest => .cons k .vnull (fieldsOfLabelVals rest)

/-- `_convert_stage_to_dict` (lines 200–236): structured-mode translation of
    one stage; match and metrics stages yield `None` (skipped). -/
def convertStageToDict : Stage → Option Value
  | .regex e =>
    some (.vmap (.cons "type" (.vstr "stage.regex") (.cons "expression" (.vstr e) .nil)))
  | .sjson src exprs =>
    some (.vmap (.cons "type" (.vstr "stage.json")
      (.cons "expressions" (.vmap (fieldsOfStrs (exprs.getD [])))
        (.cons "source" (.vstr (src.getD "")) .nil))))
  | .labels vals =>
    some (.vmap (.cons "type" (.vstr "stage.labels")
      (.cons "values" (.vmap (fieldsOfLabelVals vals)) .nil)))
  | .output s =>
    some (.vmap (.cons "type" (.vstr "stage.output") (.cons "source" (.vstr s) .nil)))
  | .template s t =>
    some (.vmap (.cons "type" (.vstr "stage.template")
      (.cons "source" (.vstr s) (.cons "template" (.vstr t) .nil))))
  | .smatch _ _ _ _ => none
  | .metrics => none
  | .unknown => none

/-- `_convert_pipeline_stages_for_process` (lines 186–198): the structured
    stage list, dropping stages whose conversion is `None`. -/
def convertPipelineStagesForProcess : Stages → Items
  | .nil => .nil
  | .cons s rest =>
    match convertStageToDict s with
    | some v => .cons v (convertPipelineStagesForProcess rest)
    | none => convertPipelineStagesForProcess rest

/-- `f'    {key} = "{value}"'` lines of an inline json stage (lines 315–316). -/
def exprLines : List (String × String) → List String
  | [] => []
  | (k, v) :: rest => ("    " ++ k ++ " = \"" ++ v ++ "\"") :: exprLines rest

/-- `_convert_json_stage` (lines 306–320). -/
def convertJsonStage (src : Option String) (exprs : Option (List (String × String))) : String :=
  joinSep "\n"
    (["json \x7b"]
      ++ (match src with
          | some s => ["  source = \"" ++ s ++ "\""]
          | none => [])
      ++ (match exprs with
          | some es => ["  expressions = \x7b"] ++ exprLines es ++ ["  \x7d"]
          | none => [])
      ++ ["\x7d"])

/-- `f'{k} = ...'` parts of an inline labels stage (lines 263–270): `None` or
    empty values render as the empty string literal. -/
def inlineLabelParts : List (String × Option String) → List String
  | [] => []
  | (k, v) :: rest =>
    (match v with
     | Option.none => k ++ " = \"\""
     | Option.some s => if s = "" then k ++ " = \"\"" else k ++ " = " ++ jsonQuote s)
      :: inlineLabelParts rest

mutual
/-- `_convert_single_stage` (lines 252–279): inline (legacy) translation of
    one stage; an unrecognized stage yields the empty string. -/
def convertSingleStage : Stage → String
  | .smatch sel pn act stages => convertMatchStage sel pn act stages
  | .regex e => "regex \x7b expression = " ++ jsonQuote e ++ " \x7d"
  | .sjson src exprs => convertJsonStage src exprs
  | .labels vals =>
    match vals with
    | [] => "labels \x7b\x7d"
    | _ => "labels \x7b " ++ joinSep ", " (inlineLabelParts vals) ++ " \x7d"
  | .metrics => "metrics \x7b /* Metrics configuration requires manual review */ \x7d"
  | .template s t =>
    "template \x7b source = \"" ++ s ++ "\", template = " ++ jsonQuote t ++ " \x7d"
  | .output s => "output \x7b source = \"" ++ s ++ "\" \x7d"
  | .unknown => ""

/-- `_convert_match_stage` (lines 281–304): optional selector,
    pipeline_name and action lines, then one nested `stage { ... }` block
    holding the recursively translated non-empty nested stages. -/
def convertMatchStage (sel pn act : Option String) (stages : OStages) : String :=
  joinSep "\n"
    ("match \x7b" ::
      ((match sel with
        | some s => ["  selector = " ++ jsonQuote s]
        | none => [])
        ++ (match pn with
            | some s => ["  pipeline_name = " ++ jsonQuote s]
            | none => [])
        ++ (match act with
            | some a => ["  action = \"" ++ a ++ "\""]
            | none => [])
        ++ (match stages with
            | .some ss =>
              match convertNestedStageLines ss with
              | [] => []
              | nested => ["  stage \x7b"] ++ nested ++ ["  \x7d"]
            | .none => [])
        ++ ["\x7d"]))

/-- The `f'    stage.{nested_stage}'` lines collected at lines 293–297. -/
def convertNestedStageLines : Stages → List String
  | .nil => []
  | .cons s rest =>
    (match convertSingleStage s with
     | "" => []
     | ns => ["    stage." ++ ns])
      ++ convertNestedStageLines rest
end

/-- `_convert_pipeline_stages` (lines 238–250): the legacy inline form,
    a `stage.`-prefixed pipe-joined single string. -/
def convertPipelineStages (stages : Stages) : String :=
  match stages with
  | .nil => ""
  | _ =>
    match inlineStageStrs stages with
    | [] => ""
    | parts => "stage." ++ joinSep " | stage." parts
where
  inlineStageStrs : Stages → List String
    | .nil => []
    | .cons s rest =>
      (match convertSingleStage s with
       | "" => []
       | str => [str])
        ++ inlineStageStrs rest

/-- One Promtail client entry (`SinkDescriptor`); `url` is a required key
    whose absence raises `KeyError` in the source. -/
structure Client where
  url : Option String
  basic_auth : Option (Option String × Option String)

/-- One `static_configs` entry. -/
structure StaticConfig where
  targets : List String
  labels : List (String × String)

/-- The `journal` descriptor of a scrape config. -/
structure JournalConfig where
  max_age : Option String
  labels : Option (List (String × String))

/-- One relabel rule (`RelabelRule`); every key is optional. -/
structure RelabelConfig where
  source_labels : Option (List String)
  target_label : Option String
  regex : Option String
  replacement : Option String
  action : Option String

/-- One scrape job (`JobDescriptor`). -/
structure ScrapeConfig where
  job_name : Option String
  static_configs : Option (List StaticConfig)
  journal : Option JournalConfig
  pipeline_stages : Option Stages
  relabel_configs : Option (List RelabelConfig)

/-- The parsed Promtail document (`SourceDocument`); absent `clients` /
    `scrape_configs` keys are the empty list (`.get(..., [])`). -/
structure PromtailConfig where
  clients : List Client
  scrape_configs : List ScrapeConfig

/-- `f"default" if idx == 0 else f"client_{idx}"` (line 50). -/
def clientIdOf (idx : Nat) : String :=
  if idx = 0 then "default" else "client_" ++ Nat.repr idx

/-- The `loki.write` component built for the client at (0-based) index
    `idx` (lines 49–68). -/
def clientComponent (idx : Nat) (c : Client) (url : String) : Component :=
  { type := "loki.write",
    id := clientIdOf idx,
    config :=
      [("endpoint", Value.vmap (.cons "url" (.vstr url)
         (match c.basic_auth with
          | some ba =>
            .cons "basic_auth" (Value.vmap (.cons "username" (.vstr (ba.1.getD ""))
              (.cons "password" (.vstr (ba.2.getD "")) .nil))) .nil
          | none => .nil))),
       ("external_labels", Value.vmap .nil)] }

/-- The loop of `_process_clients` (lines 45–70); a client without a `url`
    key raises `KeyError`. -/
def processClientsAux : List Client → Nat → Except String (List Component)
  | [], _ => Except.ok []
  | c :: rest, idx =>
    match c.url with
    | none => Except.error "KeyError: 'url'"
    | some url => do
      let tl ← processClientsAux rest (idx + 1)
      return clientComponent idx c url :: tl

/-- `_process_clients`. -/
def processClients (clients : List Client) : Except String (List Component) :=
  processClientsAux clients 0

def itemsOfStrs : List String → Items
  | [] => .nil
  | s :: rest => .cons (.vstr s) (itemsOfStrs rest)

/-- One relabel rule dict (lines 331–345), keys in the fixed source order,
    present only when set on the input rule. -/
def ruleOfRelabelConfig (rc : RelabelConfig) : Fields :=
  fieldsOfList
    ((match rc.source_labels with
      | some ls => [("source_labels", Value.vlist (itemsOfStrs ls))]
      | none => [])
      ++ (match rc.target_label with
          | some s => [("target_label", Value.vstr s)]
          | none => [])
      ++ (match rc.regex with
          | some s => [("regex", Value.vstr s)]
          | none => [])
      ++ (match rc.replacement with
          | some s => [("replacement", Value.vstr s)]
          | none => [])
      ++ (match rc.action with
          | some s => [("action", Value.vstr s)]
          | none => []))

/-- `_convert_relabel_configs` (lines 327–347). -/
def convertRelabelConfigs (rcs : List RelabelConfig) : List Fields :=
  rcs.map ruleOfRelabelConfig

/-- One `{'__address__': target, **labels}` path target (lines 100–102). -/
def pathTargetFields (labels : List (String × String)) (target : String) : Fields :=
  .cons "__address__" (.vstr target) (fieldsOfStrs labels)

def pathTargetsItems (targets : List String) (labels : List (String × String)) : Items :=
  itemsOfList (targets.map (fun t => Value.vmap (pathTargetFields labels t)))

/-- `f"{job_name}_{idx}" if idx > 0 else job_name` (line 96). -/
def fileMatchIdOf (jobName : String) (idx : Nat) : String :=
  if idx > 0 then jobName ++ "_" ++ Nat.repr idx else jobName

/-- The (discovery, source) component pair built for the static-config entry
    at (0-based) index `idx` of a job (lines 91–129). -/
def staticPairComponents (cfg : ScrapeConfig) (jobName : String) (idx : Nat)
    (sc : StaticConfig) : List Component :=
  let fileMatchId := fileMatchIdOf jobName idx
  let fileMatchComponent : Component :=
    { type := "local.file_match", id := fileMatchId,
      config := [("path_targets", Value.vlist (pathTargetsItems sc.targets sc.labels))] }
  let stagesStr :=
    match cfg.pipeline_stages with
    | some ss => convertPipelineStages ss
    | none => ""
  let sourceFileComponent : Component :=
    { type := "loki.source.file", id := fileMatchId,
      config :=
        [("targets", Value.vstr ("local.file_match." ++ fileMatchId ++ ".targets")),
         ("forward_to", Value.vlist (.cons (.vstr "loki.write.default.receiver") .nil))]
          ++ (if cfg.pipeline_stages.isSome ∧ stagesStr ≠ "" then
                [("stages", Value.vstr stagesStr)]
              else []) }
  [fileMatchComponent, sourceFileComponent]

/-- The loop of `_process_static_configs` over the entries. -/
def processStaticConfigsAux (cfg : ScrapeConfig) (jobName : String) :
    List StaticConfig → Nat → List Component
  | [], _ => []
  | sc :: rest, idx =>
    staticPairComponents cfg jobName idx sc
      ++ processStaticConfigsAux cfg jobName rest (idx + 1)

/-- `_process_static_configs` (lines 87–129). -/
def processStaticConfigs (cfg : ScrapeConfig) (jobName : String) : List Component :=
  processStaticConfigsAux cfg jobName (cfg.static_configs.getD []) 0

/-- `_process_journal_config` (lines 131–184): the optional relabel
    component first, then the journal source, then the optional
    `loki.process` component. -/
def processJournalConfig (cfg : ScrapeConfig) (jobName : String) : List Component :=
  let journalCfg := cfg.journal.getD ⟨none, none⟩
  let needsProcess :=
    match cfg.pipeline_stages with
    | some ss => !ss.isNil
    | none => false
  let fwd :=
    if needsProcess then "loki.process." ++ jobName ++ ".receiver"
    else "loki.write.default.receiver"
  let rules :=
    match cfg.relabel_configs with
    | some rcs => convertRelabelConfigs rcs
    | none => []
  let hasRelabel := cfg.relabel_configs.isSome && !rules.isEmpty
  let journalFwd :=
    if hasRelabel then "loki.relabel." ++ jobName ++ "_relabel.receiver" else fwd
  let journalComponent : Component :=
    { type := "loki.source.journal", id := jobName,
      config :=
        [("forward_to", Value.vlist (.cons (.vstr journalFwd) .nil))]
          ++ (match journalCfg.max_age with
              | some ma => [("max_age", Value.vstr ma)]
              | none => [])
          ++ (match journalCfg.labels with
              | some ls => [("labels", Value.vmap (fieldsOfStrs ls))]
              | none => []) }
  let relabelComps :=
    if hasRelabel then
      [{ type := "loki.relabel", id := jobName ++ "_relabel",
         config :=
           [("forward_to", Value.vlist (.cons (.vstr fwd) .nil)),
            ("_rules", Value.vlist (itemsOfList (rules.map Value.vmap)))] : Component}]
    else []
  relabelComps ++ [journalComponent]
    ++ (if needsProcess then
          [{ type := "loki.process", id := jobName,
             config :=
               [("forward_to", Value.vlist (.cons (.vstr "loki.write.default.receiver") .nil)),
                ("stages",
                  Value.vlist (convertPipelineStagesForProcess (cfg.pipeline_stages.getD .nil)))] :
            Component}]
        else [])

/-- `_process_scrape_configs` (lines 72–85): the `static_configs` and
    `journal` shapes are tested independently for every job. -/
def processScrapeConfigs (configs : List ScrapeConfig) : List Component :=
  configs.flatMap (fun cfg =>
    let jobName := cfg.job_name.getD "unknown"
    (if cfg.static_configs.isSome then processStaticConfigs cfg jobName else [])
      ++ (if cfg.journal.isSome then processJournalConfig cfg jobName else []))

/-- The component list accumulated by `migrate` before emission. -/
def buildComponents (pc : PromtailConfig) : Except String (List Component) := do
  let sinkComps ← processClients pc.clients
  return sinkComps ++ processScrapeConfigs pc.scrape_configs

/-- `migrate` (lines 35–43): sinks, then scrape configs, then the emitted
    text; a `KeyError` aborts the whole translation with no output. -/
def migrate (pc : PromtailConfig) : Except String String := do
  let comps ← buildComponents pc
  return generateAlloyConfig comps

/-- All component identifiers of a successfully built document. -/
def componentIds (pc : PromtailConfig) : List String :=
  match buildComponents pc with
  | Except.ok comps => comps.map Component.id
  | Except.error _ => []

/-! ### Decimal numerals: `Nat.repr` is injective.
These support the identifier-distinctness results. -/

/-- The characters of `n` in decimal, most significant first. -/
def digitsRevChars (n : Nat) : List Char :=
  if n = 0 then ['0'] else ((Nat.digits 10 n).map Nat.digitChar).reverse

lemma toDigitsCore_eq_digitsRevChars :
    ∀ (fuel n : Nat) (acc : List Char), n < fuel →
      Nat.toDigitsCore 10 fuel n acc = digitsRevChars n ++ acc := by
  intro fuel
  induction fuel with
  | zero => intro n acc h; omega
  | succ fuel ih =>
    intro n acc h
    unfold Nat.toDigitsCore
    by_cases h0 : n / 10 = 0
    · simp only [h0, if_pos rfl]
      by_cases hn : n = 0
      · subst hn
        simp [digitsRevChars]
        decide
      · have hlt : n < 10 := by omega
        rw [digitsRevChars, if_neg hn,
          Nat.digits_def' (by norm_num : 1 < 10) (Nat.pos_of_ne_zero hn), h0,
          Nat.digits_zero]
        simp
    · rw [if_neg h0]
      have hfuel : n / 10 < fuel := by omega
      rw [ih (n / 10) _ hfuel]
      have hn : n ≠ 0 := by omega
      have e1 : digitsRevChars n = ((Nat.digits 10 n).map Nat.digitChar).reverse := if_neg hn
      have e2 : digitsRevChars (n / 10) =
          ((Nat.digits 10 (n / 10)).map Nat.digitChar).reverse := if_neg h0
      rw [e1, e2, Nat.digits_def' (by norm_num : 1 < 10) (Nat.pos_of_ne_zero hn)]
      simp

lemma natRepr_eq (n : Nat) : Nat.repr n = String.mk (digitsRevChars n) := by
  unfold Nat.repr Nat.toDigits
  rw [toDigitsCore_eq_digitsRevChars (n + 1) n [] (Nat.lt_succ_self n)]
  simp [List.asString]

lemma digitChar_injOn : ∀ a, a < 10 → ∀ b, b < 10 →
    Nat.digitChar a = Nat.digitChar b → a = b := by decide

lemma map_digitChar_inj :
    ∀ (l1 l2 : List Nat), (∀ x ∈ l1, x < 10) → (∀ x ∈ l2, x < 10) →
      l1.map Nat.digitChar = l2.map Nat.digitChar → l1 = l2 := by
  intro l1
  induction l1 with
  | nil =>
    intro l2 _ _ h
    cases l2 with
    | nil => rfl
    | cons b t => simp at h
  | cons a t1 ih =>
    intro l2 h1 h2 h
    cases l2 with
    | nil => simp at h
    | cons b t2 =>
      simp only [List.map_cons, List.cons.injEq] at h
      have hab := digitChar_injOn a (h1 a (by simp)) b (h2 b (by simp)) h.1
      have ht := ih t2 (fun x hx => h1 x (by simp [hx])) (fun x hx => h2 x (by simp [hx])) h.2
      rw [hab, ht]

lemma digitsRevChars_inj : ∀ m n, digitsRevChars m = digitsRevChars n → m = n := by
  have key : ∀ n, n ≠ 0 → digitsRevChars n = ['0'] → False := by
    intro n hn h
    rw [digitsRevChars, if_neg hn] at h
    have h' : (Nat.digits 10 n).map Nat.digitChar = ['0'].reverse := by
      rw [← h, List.reverse_reverse]
    have hd : Nat.digits 10 n = [0] := by
      apply map_digitChar_inj _ [0]
        (fun x hx => Nat.digits_lt_base (by norm_num) hx) (by simp)
      simpa using h'
    have : n = 0 := by
      have := Nat.ofDigits_digits 10 n
      rw [hd] at this
      simpa [Nat.ofDigits_singleton] using this.symm
    exact hn this
  intro m n h
  by_cases hm : m = 0 <;> by_cases hn : n = 0
  · rw [hm, hn]
  · exfalso
    apply key n hn
    rw [← h]
    exact if_pos hm
  · exfalso
    apply key m hm
    rw [h]
    exact if_pos hn
  · have e1 : digitsRevChars m = ((Nat.digits 10 m).map Nat.digitChar).reverse := if_neg hm
    have e2 : digitsRevChars n = ((Nat.digits 10 n).map Nat.digitChar).reverse := if_neg hn
    rw [e1, e2] at h
    have hmaps := List.reverse_injective h
    have hd := map_digitChar_inj _ _
      (fun x hx => Nat.digits_lt_base (by norm_num) hx)
      (fun x hx => Nat.digits_lt_base (by norm_num) hx) hmaps
    have := congrArg (Nat.ofDigits 10) hd
    rwa [Nat.ofDigits_digits, Nat.ofDigits_digits] at this

lemma natRepr_inj {m n : Nat} (h : Nat.repr m = Nat.repr n) : m = n := by
  apply digitsRevChars_inj
  have hd := congrArg String.data h
  rwa [natRepr_eq, natRepr_eq] at hd

lemma digitsRevChars_ne_nil (n : Nat) : digitsRevChars n ≠ [] := by
  rw [digitsRevChars]
  split
  · simp
  · simp [Nat.digits_ne_nil_iff_ne_zero, *]

lemma natRepr_length_pos (n : Nat) : 0 < (Nat.repr n).length := by
  rw [natRepr_eq]
  show 0 < (digitsRevChars n).length
  exact List.length_pos.mpr (digitsRevChars_ne_nil n)

lemma string_append_right_inj (p : String) {a b : String} (h : p ++ a = p ++ b) : a = b := by
  have hd := congrArg String.data h
  simp only [String.data_append] at hd
  exact String.ext (List.append_cancel_left hd)

lemma clientIdOf_inj : ∀ i j, clientIdOf i = clientIdOf j → i = j := by
  intro i j h
  unfold clientIdOf at h
  by_cases hi : i = 0 <;> by_cases hj : j = 0
  · omega
  · rw [if_pos hi, if_neg hj] at h
    have := congrArg String.length h
    simp only [String.length_append] at this
    have := natRepr_length_pos j
    have h7 : ("default" : String).length = 7 := by decide
    have h7' : ("client_" : String).length = 7 := by decide
    omega
  · rw [if_neg hi, if_pos hj] at h
    have := congrArg String.length h
    simp only [String.length_append] at this
    have := natRepr_length_pos i
    have h7 : ("default" : String).length = 7 := by decide
    have h7' : ("client_" : String).length = 7 := by decide
    omega
  · rw [if_neg hi, if_neg hj] at h
    exact natRepr_inj (string_append_right_inj _ h)

lemma fileMatchIdOf_inj (jobName : String) :
    ∀ i j, fileMatchIdOf jobName i = fileMatchIdOf jobName j → i = j := by
  intro i j h
  unfold fileMatchIdOf at h
  by_cases hi : i > 0 <;> by_cases hj : j > 0
  · rw [if_pos hi, if_pos hj] at h
    have h' : jobName ++ ("_" ++ Nat.repr i) = jobName ++ ("_" ++ Nat.repr j) := by
      simpa [String.append_assoc] using h
    exact natRepr_inj (string_append_right_inj _ (string_append_right_inj _ h'))
  · rw [if_pos hi, if_neg hj] at h
    have := congrArg String.length h
    simp only [String.length_append] at this
    have := natRepr_length_pos i
    have h1 : ("_" : String).length = 1 := by decide
    omega
  · rw [if_neg hi, if_pos hj] at h
    have := congrArg String.length h
    simp only [String.length_append] at this
    have := natRepr_length_pos j
    have h1 : ("_" : String).length = 1 := by decide
    omega
  · omega

/-! ### Characterizations of the component graph builder -/

lemma processClientsAux_ok :
    ∀ (cs : List Client) (idx : Nat) (comps : List Component),
      processClientsAux cs idx = Except.ok comps →
      comps.length = cs.length ∧
      ∀ i (hi : i < cs.length),
        ∃ u, cs[i].url = some u ∧ comps[i]? = some (clientComponent (idx + i) cs[i] u) := by
  intro cs
  induction cs with
  | nil =>
    intro idx comps h
    simp only [processClientsAux] at h
    cases h
    simp
  | cons c rest ih =>
    intro idx comps h
    simp only [processClientsAux] at h
    cases hu : c.url with
    | none => rw [hu] at h; cases h
    | some url =>
      rw [hu] at h
      cases haux : processClientsAux rest (idx + 1) with
      | error e => rw [haux] at h; cases h
      | ok tl =>
        rw [haux] at h
        have hcomps : comps = clientComponent idx c url :: tl := by
          cases h; rfl
        subst hcomps
        obtain ⟨hlen, hchar⟩ := ih (idx + 1) tl haux
        refine ⟨by simp [hlen], ?_⟩
        intro i hi
        cases i with
        | zero =>
          refine ⟨url, by simpa using hu, ?_⟩
          simp
        | succ j =>
          have hj : j < rest.length := by simpa using hi
          obtain ⟨u, hu', hc⟩ := hchar j hj
          refine ⟨u, by simpa using hu', ?_⟩
          have : idx + (j + 1) = idx + 1 + j := by omega
          simpa [this] using hc

lemma processClientsAux_map_id :
    ∀ (cs : List Client) (idx : Nat) (comps : List Component),
      processClientsAux cs idx = Except.ok comps →
      comps.map Component.id = (List.range cs.length).map (fun k => clientIdOf (idx + k)) := by
  intro cs
  induction cs with
  | nil =>
    intro idx comps h
    simp only [processClientsAux] at h
    cases h
    simp
  | cons c rest ih =>
    intro idx comps h
    simp only [processClientsAux] at h
    cases hu : c.url with
    | none => rw [hu] at h; cases h
    | some url =>
      rw [hu] at h
      cases haux : processClientsAux rest (idx + 1) with
      | error e => rw [haux] at h; cases h
      | ok tl =>
        rw [haux] at h
        have hcomps : comps = clientComponent idx c url :: tl := by
          cases h; rfl
        subst hcomps
        simp only [List.length_cons]
        rw [List.range_succ_eq_map]
        simp only [List.map_cons, List.map_map]
        rw [ih (idx + 1) tl haux]
        have h1 : (clientComponent idx c url).id = clientIdOf (idx + 0) := by
          simp [clientComponent]
        rw [h1]
        congr 1
        apply List.map_congr_left
        intro k _
        simp only [Function.comp_apply]
        congr 1
        omega

lemma staticPairComponents_eq (cfg : ScrapeConfig) (jobName : String) (idx : Nat)
    (sc : StaticConfig) :
    staticPairComponents cfg jobName idx sc =
      [{ type := "local.file_match", id := fileMatchIdOf jobName idx,
         config := [("path_targets", Value.vlist (pathTargetsItems sc.targets sc.labels))] },
       { type := "loki.source.file", id := fileMatchIdOf jobName idx,
         config :=
           [("targets",
              Value.vstr ("local.file_match." ++ fileMatchIdOf jobName idx ++ ".targets")),
            ("forward_to", Value.vlist (.cons (.vstr "loki.write.default.receiver") .nil))]
             ++ (if cfg.pipeline_stages.isSome ∧
                    (match cfg.pipeline_stages with
                     | some ss => convertPipelineStages ss
                     | none => "") ≠ "" then
                   [("stages", Value.vstr
                      (match cfg.pipeline_stages with
                       | some ss => convertPipelineStages ss
                       | none => ""))]
                 else []) }] := by
  simp [staticPairComponents]

lemma processStaticConfigsAux_length (cfg : ScrapeConfig) (jobName : String) :
    ∀ (scs : List StaticConfig) (idx : Nat),
      (processStaticConfigsAux cfg jobName scs idx).length = 2 * scs.length := by
  intro scs
  induction scs with
  | nil => intro idx; simp [processStaticConfigsAux]
  | cons sc rest ih =>
    intro idx
    simp only [processStaticConfigsAux, List.length_append, ih (idx + 1),
      staticPairComponents_eq, List.length_cons]
    simp
    omega

lemma processStaticConfigsAux_get (cfg : ScrapeConfig) (jobName : String) :
    ∀ (scs : List StaticConfig) (idx : Nat) (n : Nat) (hn : n < scs.length),
      (processStaticConfigsAux cfg jobName scs idx)[2 * n]? =
        some { type := "local.file_match", id := fileMatchIdOf jobName (idx + n),
               config := [("path_targets",
                 Value.vlist (pathTargetsItems scs[n].targets scs[n].labels))] } ∧
      ∃ extra,
        (processStaticConfigsAux cfg jobName scs idx)[2 * n + 1]? =
          some { type := "loki.source.file", id := fileMatchIdOf jobName (idx + n),
                 config :=
                   [("targets", Value.vstr
                      ("local.file_match." ++ fileMatchIdOf jobName (idx + n) ++ ".targets")),
                    ("forward_to",
                      Value.vlist (.cons (.vstr "loki.write.default.receiver") .nil))]
                     ++ extra } := by
  intro scs
  induction scs with
  | nil => intro idx n hn; simp at hn
  | cons sc rest ih =>
    intro idx n hn
    rw [processStaticConfigsAux, staticPairComponents_eq]
    cases n with
    | zero =>
      constructor
      · simp
      · refine ⟨(if cfg.pipeline_stages.isSome ∧
            (match cfg.pipeline_stages with
             | some ss => convertPipelineStages ss
             | none => "") ≠ "" then
            [("stages", Value.vstr
               (match cfg.pipeline_stages with
                | some ss => convertPipelineStages ss
                | none => ""))]
          else []), ?_⟩
        simp
    | succ m =>
      have hm : m < rest.length := by simpa using hn
      obtain ⟨h1, extra, h2⟩ := ih (idx + 1) m hm
      have e1 : 2 * (m + 1) = (2 * m) + 1 + 1 := by omega
      have eidx : idx + (m + 1) = idx + 1 + m := by omega
      rw [e1]
      simp only [List.cons_append, List.getElem?_cons_succ]
      rw [eidx]
      exact ⟨by simpa using h1, extra, by simpa using h2⟩

lemma processStaticConfigsAux_filter_map_id (cfg : ScrapeConfig) (jobName : String) :
    ∀ (scs : List StaticConfig) (idx : Nat),
      ((processStaticConfigsAux cfg jobName scs idx).filter
          (fun c => c.type == "local.file_match")).map Component.id =
        (List.range scs.length).map (fun k => fileMatchIdOf jobName (idx + k)) := by
  intro scs
  induction scs with
  | nil => intro idx; simp [processStaticConfigsAux]
  | cons sc rest ih =>
    intro idx
    rw [processStaticConfigsAux, staticPairComponents_eq]
    simp only [List.length_cons]
    rw [List.range_succ_eq_map]
    simp only [List.cons_append, List.nil_append, List.filter_cons]
    norm_num
    rw [if_neg (by decide : ¬ ("loki.source.file" : String) = "local.file_match")]
    rw [ih (idx + 1)]
    apply List.map_congr_left
    intro k _
    simp only [Function.comp_apply]
    congr 1
    omega

/-! ### Claim theorems on sink identifiers and static-config pairs -/

/-- C6: for every client list that translates successfully, the first sink's
    write-component is identified `"default"` and the sink at (0-based)
    position `idx > 0` is identified `"client_idx"`, i.e. its 1-based
    position among the non-first sinks; a document with exactly two sinks
    yields ids `["default", "client_1"]`; a present basic-auth pair is
    embedded as a nested `basic_auth` attribute inside `endpoint`. -/
theorem sink_component_ids (cs : List Client) (comps : List Component)
    (h : processClients cs = Except.ok comps) :
    comps.map Component.id = (List.range cs.length).map clientIdOf
    ∧ (cs.length = 2 → comps.map Component.id = ["default", "client_1"])
    ∧ ∀ i (hi : i < cs.length) ba, cs[i].basic_auth = some ba →
        ∃ u, cs[i].url = some u ∧
          comps[i]? = some (⟨"loki.write", clientIdOf i,
            [("endpoint", Value.vmap (.cons "url" (.vstr u)
                (.cons "basic_auth" (Value.vmap (.cons "username" (.vstr (ba.1.getD ""))
                  (.cons "password" (.vstr (ba.2.getD "")) .nil))) .nil))),
             ("external_labels", Value.vmap .nil)]⟩ : Component) := by
  have hmap := processClientsAux_map_id cs 0 comps h
  have hm : comps.map Component.id = (List.range cs.length).map clientIdOf := by
    rw [hmap]
    apply List.map_congr_left
    intro k _
    simp
  refine ⟨hm, ?_, ?_⟩
  · intro h2
    rw [hm, h2]
    decide
  · intro i hi ba hba
    obtain ⟨u, hu, hc⟩ := (processClientsAux_ok cs 0 comps h).2 i hi
    refine ⟨u, hu, ?_⟩
    rw [hc]
    simp [clientComponent, hba]

/-- Witness for C6 at a concrete two-sink document. -/
theorem sink_component_ids_check :
    [clientComponent 0 ⟨some "http://sink-a", none⟩ "http://sink-a",
     clientComponent 1 ⟨some "http://sink-b", some (some "user", some "pass")⟩
       "http://sink-b"].map Component.id = ["default", "client_1"] :=
  (sink_component_ids
    [⟨some "http://sink-a", none⟩, ⟨some "http://sink-b", some (some "user", some "pass")⟩]
    _ rfl).2.1 rfl

/-- A one-job document whose single static-config entry produces a discovery
    and a source component that share the identifier `"app"`. -/
def c1ExampleDoc : PromtailConfig :=
  { clients := [],
    scrape_configs := [⟨some "app", some [⟨["localhost:9080"], [("env", "prod")]⟩],
      none, none, none⟩] }

/-- C1 counterexample: the discovery component and the source component built
    for the same static-config entry both carry the identifier `"app"`, so
    the built component list of `c1ExampleDoc` violates document-wide
    identifier uniqueness; no collision suffix is ever applied. -/
theorem duplicate_component_id_example :
    componentIds c1ExampleDoc = ["app", "app"] ∧
    ¬ (componentIds c1ExampleDoc).Pairwise (fun a b => a ≠ b) := by
  have h : componentIds c1ExampleDoc = ["app", "app"] := by decide
  refine ⟨h, ?_⟩
  rw [h]
  intro hp
  exact (List.pairwise_cons.mp hp).1 "app" (by simp) rfl

/-- C1 amended: identifier uniqueness holds per component group, not
    document-wide.  The write-components' identifiers are pairwise distinct;
    within one job, the discovery components' identifiers are pairwise
    distinct; and the discovery and source component of the same
    static-config entry always share one identifier. -/
theorem component_ids_distinct_per_group
    (cs : List Client) (comps : List Component) (h : processClients cs = Except.ok comps)
    (cfg : ScrapeConfig) (jobName : String) :
    comps.Pairwise (fun a b => a.id ≠ b.id)
    ∧ ((processStaticConfigs cfg jobName).filter
        (fun c => c.type == "local.file_match")).Pairwise (fun a b => a.id ≠ b.id)
    ∧ ∀ n, ((processStaticConfigs cfg jobName)[2 * n]?).map Component.id =
        ((processStaticConfigs cfg jobName)[2 * n + 1]?).map Component.id := by
  refine ⟨?_, ?_, ?_⟩
  · have hmap := processClientsAux_map_id cs 0 comps h
    have hp : (comps.map Component.id).Pairwise (fun a b => a ≠ b) := by
      rw [hmap]
      refine List.pairwise_map.mpr ?_
      refine (List.pairwise_lt_range cs.length).imp ?_
      intro a b hab heq
      exact Nat.ne_of_lt hab (clientIdOf_inj _ _ (by simpa using heq))
    exact List.pairwise_map.mp hp
  · have hmap := processStaticConfigsAux_filter_map_id cfg jobName
      (cfg.static_configs.getD []) 0
    have hp : (((processStaticConfigs cfg jobName).filter
        (fun c => c.type == "local.file_match")).map Component.id).Pairwise
          (fun a b => a ≠ b) := by
      rw [processStaticConfigs, hmap]
      refine List.pairwise_map.mpr ?_
      refine (List.pairwise_lt_range _).imp ?_
      intro a b hab heq
      exact Nat.ne_of_lt hab (fileMatchIdOf_inj jobName _ _ (by simpa using heq))
    exact List.pairwise_map.mp hp
  · intro n
    by_cases hn : n < (cfg.static_configs.getD []).length
    · obtain ⟨h1, extra, h2⟩ :=
        processStaticConfigsAux_get cfg jobName (cfg.static_configs.getD []) 0 n hn
      rw [processStaticConfigs, h1, h2]
      simp
    · have hlen :=
        processStaticConfigsAux_length cfg jobName (cfg.static_configs.getD []) 0
      rw [processStaticConfigs,
        List.getElem?_eq_none (by omega),
        List.getElem?_eq_none (by omega)]

/-- Witness for the amended C1 at a one-sink document and a two-entry job. -/
theorem component_ids_distinct_per_group_check :
    (((processStaticConfigs
        ⟨some "app", some [⟨["t1"], []⟩, ⟨["t2"], []⟩], none, none, none⟩
        "app").filter (fun c => c.type == "local.file_match")).Pairwise
      (fun a b => a.id ≠ b.id)) :=
  (component_ids_distinct_per_group [⟨some "http://sink", none⟩] _ rfl
    ⟨some "app", some [⟨["t1"], []⟩, ⟨["t2"], []⟩], none, none, none⟩ "app").2.1

/-- C5: for every job with `static_configs`, the builder emits exactly one
    (discovery, source) pair per entry in entry order; the n-th discovery id
    is the job name for `n = 0` and `jobname_n` otherwise; the paired source
    component carries the same id, references the discovery component's
    targets, and forwards to the default sink's receiver. -/
theorem static_configs_pairs (cfg : ScrapeConfig) (jobName : String)
    (scs : List StaticConfig) (hscs : cfg.static_configs = some scs) :
    (processStaticConfigs cfg jobName).length = 2 * scs.length
    ∧ ∀ n (hn : n < scs.length),
      ∃ cD cS,
        (processStaticConfigs cfg jobName)[2 * n]? = some cD ∧
        (processStaticConfigs cfg jobName)[2 * n + 1]? = some cS ∧
        cD.type = "local.file_match" ∧
        cD.id = (if n = 0 then jobName else jobName ++ "_" ++ Nat.repr n) ∧
        cD.config = [("path_targets",
          Value.vlist (pathTargetsItems scs[n].targets scs[n].labels))] ∧
        cS.type = "loki.source.file" ∧
        cS.id = cD.id ∧
        cS.config.lookup "targets" =
          some (Value.vstr ("local.file_match." ++ cD.id ++ ".targets")) ∧
        cS.config.lookup "forward_to" =
          some (Value.vlist (.cons (.vstr "loki.write.default.receiver") .nil)) := by
  have hunfold : processStaticConfigs cfg jobName =
      processStaticConfigsAux cfg jobName scs 0 := by
    rw [processStaticConfigs, hscs]
    rfl
  constructor
  · rw [hunfold]
    exact processStaticConfigsAux_length cfg jobName scs 0
  · intro n hn
    obtain ⟨h1, extra, h2⟩ := processStaticConfigsAux_get cfg jobName scs 0 n hn
    have hid : fileMatchIdOf jobName (0 + n) =
        (if n = 0 then jobName else jobName ++ "_" ++ Nat.repr n) := by
      simp only [Nat.zero_add]
      rcases n with _ | m
      · simp [fileMatchIdOf]
      · simp [fileMatchIdOf]
    refine ⟨_, _, by rw [hunfold]; exact h1, by rw [hunfold]; exact h2,
      rfl, hid, rfl, rfl, by simp [hid], ?_⟩
    simp [List.lookup]

/-- Witness for C5 at a concrete one-entry job. -/
theorem static_configs_pairs_check :
    (processStaticConfigs ⟨some "app", some [⟨["localhost:9080"], [("env", "prod")]⟩],
        none, none, none⟩ "app").length = 2 * 1 :=
  (static_configs_pairs _ "app" [⟨["localhost:9080"], [("env", "prod")]⟩] rfl).1

/-- C2: a document with one sink and one journal job carrying both non-empty
    `pipeline_stages` and non-empty `relabel_configs` builds exactly four
    components in order: the write-sink "default", the relabel component
    `<job>_relabel` forwarding to the processing component, the journal
    source forwarding to the relabel component, and the processing component
    forwarding to the write-sink. -/
theorem journal_relabel_process_pipeline
    (url jobName : String) (j : JournalConfig) (ss : Stages) (rcs : List RelabelConfig)
    (hss : ss ≠ Stages.nil) (hrcs : rcs ≠ []) :
    ∃ cW cR cJ cP,
      buildComponents ⟨[⟨some url, none⟩], [⟨some jobName, none, some j, some ss, some rcs⟩]⟩ =
        Except.ok [cW, cR, cJ, cP]
      ∧ cW.type = "loki.write" ∧ cW.id = "default"
      ∧ cR.type = "loki.relabel" ∧ cR.id = jobName ++ "_relabel"
      ∧ cR.config.lookup "forward_to" =
          some (Value.vlist (.cons (.vstr ("loki.process." ++ jobName ++ ".receiver")) .nil))
      ∧ cJ.type = "loki.source.journal" ∧ cJ.id = jobName
      ∧ cJ.config.lookup "forward_to" =
          some (Value.vlist (.cons (.vstr ("loki.relabel." ++ jobName ++ "_relabel.receiver"))
            .nil))
      ∧ cP.type = "loki.process" ∧ cP.id = jobName
      ∧ cP.config.lookup "forward_to" =
          some (Value.vlist (.cons (.vstr "loki.write.default.receiver") .nil)) := by
  rcases ss with _ | ⟨s0, srest⟩
  · exact absurd rfl hss
  rcases rcs with _ | ⟨r0, rrest⟩
  · exact absurd rfl hrcs
  exact ⟨_, _, _, _, rfl, rfl, rfl, rfl, rfl, rfl, rfl, rfl, rfl, rfl, rfl, rfl⟩

/-- Witness for C2 at a concrete journal job. -/
theorem journal_relabel_process_pipeline_check :
    ∃ cW cR cJ cP,
      buildComponents ⟨[⟨some "http://sink", none⟩],
        [⟨some "sysjob", none, some ⟨none, none⟩, some (.cons (.regex "expr") .nil),
          some [⟨none, none, none, none, some "drop"⟩]⟩]⟩ =
        Except.ok [cW, cR, cJ, cP] := by
  obtain ⟨cW, cR, cJ, cP, h, -⟩ :=
    journal_relabel_process_pipeline "http://sink" "sysjob" ⟨none, none⟩
      (.cons (.regex "expr") .nil) [⟨none, none, none, none, some "drop"⟩]
      (fun h => Stages.noConfusion h) (fun h => List.noConfusion h)
  exact ⟨cW, cR, cJ, cP, h⟩

lemma processClientsAux_error_of_missing_url :
    ∀ (cs : List Client) (idx : Nat), (∃ c ∈ cs, c.url = none) →
      ∃ e, processClientsAux cs idx = Except.error e := by
  intro cs
  induction cs with
  | nil => intro idx h; simp at h
  | cons c rest ih =>
    intro idx h
    obtain ⟨c', hc', hurl⟩ := h
    rcases List.mem_cons.mp hc' with hh | hh
    · subst hh
      rw [processClientsAux, hurl]
      exact ⟨_, rfl⟩
    · cases hcu : c.url with
      | none =>
        rw [processClientsAux, hcu]
        exact ⟨_, rfl⟩
      | some u =>
        obtain ⟨e, he⟩ := ih (idx + 1) ⟨c', hh, hurl⟩
        rw [processClientsAux, hcu]
        refine ⟨e, ?_⟩
        simp only [he]
        rfl

/-- C9: a document containing a sink descriptor without a `url` key makes
    the whole translation fail with an error; `migrate` returns no output
    text for it. -/
theorem missing_sink_url_aborts (pc : PromtailConfig)
    (h : ∃ c ∈ pc.clients, c.url = none) :
    ∃ e, migrate pc = Except.error e := by
  obtain ⟨e, he⟩ := processClientsAux_error_of_missing_url pc.clients 0 h
  refine ⟨e, ?_⟩
  rw [migrate, buildComponents, processClients, he]
  rfl

/-- Witness for C9 at a concrete url-less sink. -/
theorem missing_sink_url_aborts_check :
    ∃ e, migrate ⟨[⟨none, none⟩], []⟩ = Except.error e :=
  missing_sink_url_aborts ⟨[⟨none, none⟩], []⟩ ⟨⟨none, none⟩, by simp, rfl⟩

lemma journal_comp_mem (cfg : ScrapeConfig) (jobName : String) :
    ∃ c ∈ processJournalConfig cfg jobName, c.type = "loki.source.journal" := by
  simp only [processJournalConfig]
  apply Exists.intro
  constructor
  · apply List.mem_append_left
    apply List.mem_append_right
    exact List.mem_singleton_self _
  · rfl

/-- C10: a job carrying both a non-empty `static_configs` list and a
    `journal` descriptor contributes components for both scrape mechanisms:
    the two shapes are tested independently, so the built list is the
    static-config components followed by the journal components, and both a
    discovery component and a journal-source component are present. -/
theorem static_and_journal_both_processed (cfg : ScrapeConfig)
    (scs : List StaticConfig) (j : JournalConfig)
    (hscs : cfg.static_configs = some scs) (hne : scs ≠ []) (hj : cfg.journal = some j) :
    processScrapeConfigs [cfg] =
      processStaticConfigs cfg (cfg.job_name.getD "unknown")
        ++ processJournalConfig cfg (cfg.job_name.getD "unknown")
    ∧ (∃ c ∈ processScrapeConfigs [cfg], c.type = "local.file_match")
    ∧ (∃ c ∈ processScrapeConfigs [cfg], c.type = "loki.source.journal") := by
  have h1 : processScrapeConfigs [cfg] =
      processStaticConfigs cfg (cfg.job_name.getD "unknown")
        ++ processJournalConfig cfg (cfg.job_name.getD "unknown") := by
    simp [processScrapeConfigs, hscs, hj]
  refine ⟨h1, ?_, ?_⟩
  · rcases scs with _ | ⟨sc, rest⟩
    · exact absurd rfl hne
    · have h2 : processStaticConfigs cfg (cfg.job_name.getD "unknown") =
          staticPairComponents cfg (cfg.job_name.getD "unknown") 0 sc
            ++ processStaticConfigsAux cfg (cfg.job_name.getD "unknown") rest 1 := by
        rw [processStaticConfigs, hscs]
        rfl
      rw [h1, h2, staticPairComponents_eq]
      refine ⟨⟨"local.file_match", fileMatchIdOf (cfg.job_name.getD "unknown") 0,
        [("path_targets", Value.vlist (pathTargetsItems sc.targets sc.labels))]⟩, ?_, rfl⟩
      apply List.mem_append_left
      apply List.mem_append_left
      exact List.mem_cons_self _ _
  · obtain ⟨c, hc, hty⟩ := journal_comp_mem cfg (cfg.job_name.getD "unknown")
    rw [h1]
    exact ⟨c, List.mem_append_right _ hc, hty⟩

/-- Witness for C10 at a concrete job with both shapes. -/
theorem static_and_journal_both_processed_check :
    ∃ c ∈ processScrapeConfigs
        [⟨some "dual", some [⟨["t"], []⟩], some ⟨none, none⟩, none, none⟩],
      c.type = "loki.source.journal" :=
  (static_and_journal_both_processed
    ⟨some "dual", some [⟨["t"], []⟩], some ⟨none, none⟩, none, none⟩
    [⟨["t"], []⟩] ⟨none, none⟩ rfl (fun h => List.noConfusion h) rfl).2.2

/-! ### Claim theorems on the Value Formatter -/

/-- C3 counterexample: a non-empty map under a special key is NOT rendered
    as a single-line brace attribute — the formatter emits a three-line
    attribute; and an empty map under a non-special key is rendered
    `key = {}`, not as an omitted-body block `key {}`. -/
theorem labels_map_not_single_line :
    formatConfigValue "labels" (.vmap (.cons "a" (.vstr "x") .nil)) 2 =
      ["  labels = \x7b", "    a = \"x\",", "  \x7d"]
    ∧ (formatConfigValue "labels" (.vmap (.cons "a" (.vstr "x") .nil)) 2).length ≠ 1
    ∧ formatConfigValue "endpoint" (.vmap .nil) 2 = ["  endpoint = \x7b\x7d"]
    ∧ formatConfigValue "endpoint" (.vmap .nil) 2 ≠ ["  endpoint \x7b\x7d"] :=
  ⟨by decide, by decide, by decide, by decide⟩

/-- C3 amended: an empty map under a `labels`-class key renders as
    `key = {}`; a non-empty map under such a key renders as a three-line
    brace attribute — `key = {`, one line carrying all entries comma-joined
    with a trailing comma, and `}` — the same shape for any size; a
    non-empty map under any other key renders as a nested block
    `key { ... }`, while an empty map under any other key renders as
    `key = {}` (not `key {}`). -/
theorem labels_map_rendering (key : String) (f : Fields) (indent : Nat) :
    ((key = "labels" ∨ key = "external_labels") →
      (f = .nil →
        formatConfigValue key (.vmap f) indent =
          [String.mk (List.replicate indent ' ') ++ key ++ " = \x7b\x7d"]) ∧
      (f ≠ .nil →
        formatConfigValue key (.vmap f) indent =
          [String.mk (List.replicate indent ' ') ++ key ++ " = \x7b",
           String.mk (List.replicate indent ' ') ++ "  " ++
             joinSep ", " (labelItems f) ++ ",",
           String.mk (List.replicate indent ' ') ++ "\x7d"]))
    ∧ (¬(key = "labels" ∨ key = "external_labels") →
      (f = .nil →
        formatConfigValue key (.vmap f) indent =
          [String.mk (List.replicate indent ' ') ++ key ++ " = \x7b\x7d"]) ∧
      (f ≠ .nil →
        formatConfigValue key (.vmap f) indent =
          [String.mk (List.replicate indent ' ') ++ key ++ " \x7b"]
            ++ formatFields f (indent + 2)
            ++ [String.mk (List.replicate indent ' ') ++ "\x7d"])) := by
  constructor
  · intro hk
    have hb : (key = "labels" || key = "external_labels") = true := by
      rcases hk with h | h <;> simp [h]
    constructor
    · intro hf
      subst hf
      simp [formatConfigValue, hb]
    · intro hf
      rcases f with _ | ⟨k0, v0, frest⟩
      · exact absurd rfl hf
      · simp [formatConfigValue, hb]
  · intro hk
    push_neg at hk
    have hb : (key = "labels" || key = "external_labels") = false := by
      simp [hk.1, hk.2]
    constructor
    · intro hf
      subst hf
      simp [formatConfigValue, hb]
    · intro hf
      rcases f with _ | ⟨k0, v0, frest⟩
      · exact absurd rfl hf
      · simp [formatConfigValue, hb]

/-- Witness for the amended C3: a three-entry map renders in the same
    three-line attribute shape as a one-entry map. -/
theorem labels_map_rendering_check :
    formatConfigValue "labels" (.vmap (.cons "a" (.vstr "x") (.cons "b" (.vstr "y")
        (.cons "c" (.vstr "z") .nil)))) 0 =
      ["labels = \x7b", "  a = \"x\", b = \"y\", c = \"z\",", "\x7d"] := by
  have h := ((labels_map_rendering "labels"
      (.cons "a" (.vstr "x") (.cons "b" (.vstr "y") (.cons "c" (.vstr "z") .nil))) 0).1
      (Or.inl rfl)).2 (fun hh => Fields.noConfusion hh)
  rw [h]
  decide

/-- C8 counterexample: the empty list under `forward_to` is not rendered as
    a single-line bracketed list — it falls into the record-list branch and
    renders as two lines. -/
theorem forward_to_empty_list_two_lines :
    formatConfigValue "forward_to" (.vlist .nil) 2 = ["  forward_to = [", "  ]"]
    ∧ (formatConfigValue "forward_to" (.vlist .nil) 2).length ≠ 1 :=
  ⟨by decide, by decide⟩

lemma forwardRefs_itemsOfStrs (ss : List String) :
    forwardRefs (itemsOfStrs ss) = ss.map (fun s =>
      if strStartsWith s "loki." || strStartsWith s "prometheus." then s
      else jsonQuote s) := by
  induction ss with
  | nil => rfl
  | cons s rest ih => simp [itemsOfStrs, forwardRefs, forwardRefOrQuote, ih]

/-- C8 amended: every NON-EMPTY list of strings under the `forward_to` key
    renders as a single line — a bracketed comma-joined list whose elements
    are unquoted exactly when they start with `loki.` or `prometheus.` and
    JSON-quoted otherwise; the empty list instead renders as a two-line
    empty bracket block. -/
theorem forward_to_rendering (ss : List String) (indent : Nat) (hne : ss ≠ []) :
    formatConfigValue "forward_to" (.vlist (itemsOfStrs ss)) indent =
      [String.mk (List.replicate indent ' ') ++ "forward_to" ++ " = [" ++
        joinSep ", " (ss.map (fun s =>
          if strStartsWith s "loki." || strStartsWith s "prometheus." then s
          else jsonQuote s)) ++ "]"] := by
  rcases ss with _ | ⟨s0, srest⟩
  · exact absurd rfl hne
  · rw [← forwardRefs_itemsOfStrs]
    simp [formatConfigValue, itemsOfStrs, Items.allMaps]

/-- Witness for the amended C8 at a two-element list. -/
theorem forward_to_rendering_check :
    formatConfigValue "forward_to"
      (.vlist (itemsOfStrs ["loki.write.default.receiver", "other"])) 2 =
      ["  forward_to = [loki.write.default.receiver, \"other\"]"] := by
  rw [forward_to_rendering ["loki.write.default.receiver", "other"] 2 (by simp)]
  decide

/-! ### Claim theorems on the Stage Translator -/

/-- C4 counterexample: in the inline emission mode a metrics stage does NOT
    contribute empty output — it emits a fixed placeholder comment block. -/
theorem metrics_inline_emits_placeholder :
    convertSingleStage Stage.metrics =
      "metrics \x7b /* Metrics configuration requires manual review */ \x7d"
    ∧ convertSingleStage Stage.metrics ≠ "" :=
  ⟨rfl, by decide⟩

/-- C4 amended: in structured mode a metrics stage contributes no attribute
    tree — it is dropped and the surrounding stages translate exactly as if
    it were absent; in inline mode it emits a fixed placeholder comment
    string flagging manual review; the engine keeps no skip report. -/
theorem metrics_stage_skipped_structured :
    (∀ pre post : List Stage,
      convertPipelineStagesForProcess (stagesOfList (pre ++ Stage.metrics :: post)) =
        convertPipelineStagesForProcess (stagesOfList (pre ++ post)))
    ∧ convertStageToDict Stage.metrics = none
    ∧ convertSingleStage Stage.metrics =
        "metrics \x7b /* Metrics configuration requires manual review */ \x7d" := by
  refine ⟨?_, rfl, rfl⟩
  intro pre post
  induction pre with
  | nil => rfl
  | cons s rest ih =>
    simp only [List.cons_append, stagesOfList, convertPipelineStagesForProcess]
    cases convertStageToDict s <;> simp [ih]

/-! ### Line-level observers for the inline match-stage output (C7) -/

/-- Split a character list at newlines, like Python `text.split('\n')`. -/
def charLines : List Char → List String
  | [] => [""]
  | c :: rest =>
    if c = '\n' then "" :: charLines rest
    else
      match charLines rest with
      | [] => [String.mk [c]]
      | l :: ls => String.mk (c :: l.data) :: ls

/-- The lines of a string. -/
def strLines (s : String) : List String :=
  charLines s.data

lemma charLines_ne_nil : ∀ cs, charLines cs ≠ [] := by
  intro cs
  induction cs with
  | nil => simp [charLines]
  | cons c rest ih =>
    simp only [charLines]
    split
    · simp
    · cases h : charLines rest with
      | nil => exact absurd h ih
      | cons l ls => simp [h]

lemma charLines_append_newline :
    ∀ (xs ys : List Char), charLines (xs ++ '\n' :: ys) = charLines xs ++ charLines ys := by
  intro xs ys
  induction xs with
  | nil => simp [charLines]
  | cons c xs ih =>
    by_cases hc : c = '\n'
    · subst hc
      simp [charLines, ih]
    · simp only [List.cons_append, charLines, if_neg hc, List.append_eq]
      rw [ih]
      cases h : charLines xs with
      | nil => exact absurd h (charLines_ne_nil xs)
      | cons l ls => simp [h]

lemma charLines_no_newline :
    ∀ (xs : List Char), (∀ c ∈ xs, c ≠ '\n') → charLines xs = [String.mk xs] := by
  intro xs
  induction xs with
  | nil => intro _; rfl
  | cons c xs ih =>
    intro h
    have hc : c ≠ '\n' := h c (by simp)
    rw [charLines, if_neg hc, ih (fun c' hc' => h c' (by simp [hc']))]

lemma charLines_append_of_no_newline
    (xs ys : List Char) (l : String) (ls : List String)
    (hnn : ∀ c ∈ xs, c ≠ '\n') (h : charLines ys = l :: ls) :
    charLines (xs ++ ys) = String.mk (xs ++ l.data) :: ls := by
  induction xs with
  | nil => simpa using h
  | cons c xs ih =>
    have hc : c ≠ '\n' := hnn c (by simp)
    have hx : ∀ c' ∈ xs, c' ≠ '\n' := fun c' hc' => hnn c' (by simp [hc'])
    rw [List.cons_append, charLines, if_neg hc, ih hx]
    rfl

lemma strLines_joinSep :
    ∀ (parts : List String), parts ≠ [] →
      (∀ p ∈ parts, ∀ c ∈ p.data, c ≠ '\n') →
      strLines (joinSep "\n" parts) = parts := by
  intro parts
  induction parts with
  | nil => intro h; exact absurd rfl h
  | cons p rest ih =>
    intro _ hnn
    cases rest with
    | nil =>
      show charLines (joinSep "\n" [p]).data = [p]
      rw [joinSep, charLines_no_newline p.data (hnn p (by simp))]
    | cons q rest' =>
      have hj : joinSep "\n" (p :: q :: rest') = p ++ "\n" ++ joinSep "\n" (q :: rest') := rfl
      rw [strLines, hj]
      have hdata : (p ++ "\n" ++ joinSep "\n" (q :: rest')).data
          = p.data ++ '\n' :: (joinSep "\n" (q :: rest')).data := by
        simp [String.data_append]
      rw [hdata, charLines_append_newline,
        charLines_no_newline p.data (hnn p (by simp))]
      have hrest := ih (by simp) (fun p' hp' => hnn p' (by simp [hp']))
      rw [strLines] at hrest
      rw [hrest]
      rfl

/-- A match stage nested to depth `D`: `matchChain 0` is a match step with
    no `stages` key, and each further level wraps the previous chain as the
    single nested stage. -/
def matchChain : Nat → Stage
  | 0 => .smatch none none none .none
  | n + 1 => .smatch none none none (.some (.cons (matchChain n) .nil))

/-- The expected lines of `matchChain`: each depth level contributes exactly
    one more nested `stage { ... }` block around the previous output. -/
def chainLines : Nat → List String
  | 0 => ["match \x7b", "\x7d"]
  | n + 1 =>
    ["match \x7b", "  stage \x7b", "    stage.match \x7b"]
      ++ (chainLines n).tail ++ ["  \x7d", "\x7d"]

lemma nestedLines_of_ne (st : Stage) (rest : Stages) (h : convertSingleStage st ≠ "") :
    convertNestedStageLines (.cons st rest) =
      ("    stage." ++ convertSingleStage st) :: convertNestedStageLines rest := by
  rw [convertNestedStageLines]
  split
  · rename_i heq
    exact absurd heq h
  · rfl

lemma joinSep_head_ne_empty (l : List String) : joinSep "\n" ("match \x7b" :: l) ≠ "" := by
  cases l with
  | nil => decide
  | cons b rest =>
    intro h
    have hd := congrArg String.data h
    simp only [joinSep, String.data_append] at hd
    simp at hd

lemma convertMatchStage_eq (sel pn act : Option String) (st : OStages) :
    convertMatchStage sel pn act st =
      joinSep "\n"
        ("match \x7b" ::
          ((match sel with
            | some s => ["  selector = " ++ jsonQuote s]
            | none => [])
            ++ (match pn with
                | some s => ["  pipeline_name = " ++ jsonQuote s]
                | none => [])
            ++ (match act with
                | some a => ["  action = \"" ++ a ++ "\""]
                | none => [])
            ++ (match st with
                | .some ss =>
                  match convertNestedStageLines ss with
                  | [] => []
                  | nested => ["  stage \x7b"] ++ nested ++ ["  \x7d"]
                | .none => [])
            ++ ["\x7d"])) := by
  cases st <;> rfl

lemma convertMatchStage_ne_empty (sel pn act : Option String) (st : OStages) :
    convertMatchStage sel pn act st ≠ "" := by
  rw [convertMatchStage_eq]
  exact joinSep_head_ne_empty _

lemma convertSingleStage_matchChain_ne (D : Nat) :
    convertSingleStage (matchChain D) ≠ "" := by
  cases D with
  | zero => exact convertMatchStage_ne_empty none none none .none
  | succ n => exact convertMatchStage_ne_empty none none none _

lemma chainLines_head : ∀ D, chainLines D = "match \x7b" :: (chainLines D).tail := by
  intro D
  cases D with
  | zero => rfl
  | succ n => rfl

lemma strLines_matchChain : ∀ D, strLines (convertSingleStage (matchChain D)) = chainLines D := by
  intro D
  induction D with
  | zero => decide
  | succ D ih =>
    have hnested : convertNestedStageLines (.cons (matchChain D) .nil) =
        ["    stage." ++ convertSingleStage (matchChain D)] := by
      rw [nestedLines_of_ne _ _ (convertSingleStage_matchChain_ne D)]
      rfl
    have hconv : convertSingleStage (matchChain (D + 1)) =
        joinSep "\n" ["match \x7b", "  stage \x7b",
          "    stage." ++ convertSingleStage (matchChain D), "  \x7d", "\x7d"] := by
      show convertMatchStage none none none (.some (.cons (matchChain D) .nil)) = _
      rw [convertMatchStage_eq]
      simp [hnested]
    rw [hconv]
    have hdata : (joinSep "\n" ["match \x7b", "  stage \x7b",
        "    stage." ++ convertSingleStage (matchChain D), "  \x7d", "\x7d"]).data =
      ("match \x7b").data ++ '\n' :: (("  stage \x7b").data ++ '\n' ::
        (("    stage.").data ++ ((convertSingleStage (matchChain D)).data ++ '\n' ::
          (("  \x7d").data ++ '\n' :: ("\x7d").data)))) := by
      simp [joinSep, String.data_append]
    have h2 : charLines (("  \x7d").data ++ '\n' :: ("\x7d").data) =
        ["  \x7d", "\x7d"] := by decide
    have hys : charLines ((convertSingleStage (matchChain D)).data ++ '\n' ::
        (("  \x7d").data ++ '\n' :: ("\x7d").data)) =
        "match \x7b" :: ((chainLines D).tail ++ ["  \x7d", "\x7d"]) := by
      rw [charLines_append_newline, h2]
      have hih : charLines (convertSingleStage (matchChain D)).data = chainLines D := ih
      rw [hih, chainLines_head D]
      rfl
    rw [strLines, hdata, charLines_append_newline, charLines_append_newline,
      charLines_append_of_no_newline ("    stage.").data _ "match \x7b"
        ((chainLines D).tail ++ ["  \x7d", "\x7d"]) (by decide) hys,
      show charLines ("match \x7b").data = ["match \x7b"] from by decide,
      show charLines ("  stage \x7b").data = ["  stage \x7b"] from by decide,
      show String.mk (("    stage.").data ++ ("match \x7b").data) =
        "    stage.match \x7b" from by decide]
    rw [chainLines]
    rfl

lemma chainLines_count : ∀ D, (chainLines D).count "  stage \x7b" = D := by
  intro D
  induction D with
  | zero => decide
  | succ D ih =>
    have htl : ((chainLines D).tail).count "  stage \x7b" = D := by
      have := chainLines_head D
      rw [this, List.count_cons] at ih
      simpa using ih
    rw [chainLines]
    simp only [List.count_append, htl, List.count_cons, List.count_nil,
      show (("match \x7b" : String) == "  stage \x7b") = false from by decide,
      show (("  stage \x7b" : String) == "  stage \x7b") = true from by decide,
      show (("    stage.match \x7b" : String) == "  stage \x7b") = false from by decide,
      show (("\x7d" : String) == "  stage \x7b") = false from by decide,
      show (("  \x7d" : String) == "  stage \x7b") = false from by decide]
    norm_num
    omega

lemma digitChar_ge16 (n : Nat) (h : 16 ≤ n) : Nat.digitChar n = '*' := by
  unfold Nat.digitChar
  repeat rw [if_neg (by omega)]

lemma digitChar_ne_newline (n : Nat) : Nat.digitChar n ≠ '\n' := by
  by_cases h : n < 16
  · interval_cases n <;> decide
  · rw [digitChar_ge16 n (by omega)]
    decide

lemma uEscape_no_newline (n : Nat) : ∀ c ∈ (uEscape n).data, c ≠ '\n' := by
  intro c hc
  simp only [uEscape, String.data_append] at hc
  simp only [List.mem_append, List.mem_cons, List.not_mem_nil, or_false] at hc
  rcases hc with (hc | hc) | hc | hc | hc | hc
  · subst hc; decide
  · subst hc; decide
  · subst hc; exact digitChar_ne_newline _
  · subst hc; exact digitChar_ne_newline _
  · subst hc; exact digitChar_ne_newline _
  · subst hc; exact digitChar_ne_newline _

lemma jsonEscapeChar_no_newline (ch : Char) : ∀ c ∈ (jsonEscapeChar ch).data, c ≠ '\n' := by
  unfold jsonEscapeChar
  split_ifs with h1 h2 h3 h4 h5 h6 h7 h8 h9
  · decide
  · decide
  · decide
  · decide
  · decide
  · decide
  · decide
  · exact uEscape_no_newline _
  · intro c hc
    simp only [String.data_append] at hc
    rcases List.mem_append.mp hc with hc | hc
    · exact uEscape_no_newline _ c hc
    · exact uEscape_no_newline _ c hc
  · intro c hc
    have hceq : c = ch := by
      rw [show (String.singleton ch).data = [ch] from rfl] at hc
      simpa using hc
    subst hceq
    intro hcc
    subst hcc
    simp at h8

lemma append_no_newline {s t : String} (hs : ∀ c ∈ s.data, c ≠ '\n')
    (ht : ∀ c ∈ t.data, c ≠ '\n') : ∀ c ∈ (s ++ t).data, c ≠ '\n' := by
  intro c hc
  rcases List.mem_append.mp (by simpa [String.data_append] using hc) with h | h
  · exact hs c h
  · exact ht c h

lemma escapeAll_no_newline : ∀ (cs : List Char), ∀ c ∈ (escapeAll cs).data, c ≠ '\n' := by
  intro cs
  induction cs with
  | nil =>
    intro c hc
    rw [show (escapeAll []).data = [] from rfl] at hc
    exact absurd hc (List.not_mem_nil c)
  | cons ch rest ih =>
    intro c hc
    rw [show escapeAll (ch :: rest) = jsonEscapeChar ch ++ escapeAll rest from rfl,
      String.data_append] at hc
    rcases List.mem_append.mp hc with hc | hc
    · exact jsonEscapeChar_no_newline ch c hc
    · exact ih c hc

lemma jsonQuote_no_newline (s : String) : ∀ c ∈ (jsonQuote s).data, c ≠ '\n' := by
  rw [show jsonQuote s = "\"" ++ escapeAll s.data ++ "\"" from rfl]
  exact append_no_newline
    (append_no_newline (by decide) (escapeAll_no_newline s.data)) (by decide)

/-- C7: the inline translation of a match stage whose nested steps reach
    depth `D` carries exactly `D` nested `stage { ... }` block-opener lines
    (`chainLines` exhibits the nesting level by level); and the selector,
    pipeline_name and action lines of a match stage each appear in the
    output exactly when the corresponding field is present in the input. -/
theorem match_stage_nesting :
    (∀ D, strLines (convertSingleStage (matchChain D)) = chainLines D ∧
      (chainLines D).count "  stage \x7b" = D)
    ∧ (∀ sel pn act : Option String,
        (∀ a, act = some a → ∀ c ∈ a.data, c ≠ '\n') →
        strLines (convertMatchStage sel pn act OStages.none) =
          "match \x7b" ::
            ((match sel with
              | some s => ["  selector = " ++ jsonQuote s]
              | none => [])
              ++ (match pn with
                  | some s => ["  pipeline_name = " ++ jsonQuote s]
                  | none => [])
              ++ (match act with
                  | some a => ["  action = \"" ++ a ++ "\""]
                  | none => [])
              ++ ["\x7d"])) := by
  constructor
  · intro D
    exact ⟨strLines_matchChain D, chainLines_count D⟩
  · intro sel pn act hact
    rw [convertMatchStage_eq]
    rw [strLines_joinSep _ (by simp) ?_]
    · simp
    · intro p hp
      rcases List.mem_cons.mp hp with hp | hp
      · subst hp; decide
      rcases List.mem_append.mp hp with hp | hp
      · rcases List.mem_append.mp hp with hp | hp
        · rcases List.mem_append.mp hp with hp | hp
          · rcases List.mem_append.mp hp with hp | hp
            · cases sel with
              | none => exact absurd hp (List.not_mem_nil p)
              | some s =>
                have : p = "  selector = " ++ jsonQuote s := by simpa using hp
                subst this
                exact append_no_newline (by decide) (jsonQuote_no_newline s)
            · cases pn with
              | none => exact absurd hp (List.not_mem_nil p)
              | some s =>
                have : p = "  pipeline_name = " ++ jsonQuote s := by simpa using hp
                subst this
                exact append_no_newline (by decide) (jsonQuote_no_newline s)
          · cases act with
            | none => exact absurd hp (List.not_mem_nil p)
            | some a =>
              have : p = "  action = \"" ++ a ++ "\"" := by simpa using hp
              subst this
              exact append_no_newline
                (append_no_newline (by decide) (hact a rfl)) (by decide)
        · exact absurd hp (List.not_mem_nil p)
      · have : p = "\x7d" := by simpa using hp
        subst this
        decide

/-- Witness for C7 at depth 3 and at a match stage with selector and action
    but no pipeline_name and no nested stages. -/
theorem match_stage_nesting_check :
    (chainLines 3).count "  stage \x7b" = 3 ∧
    strLines (convertMatchStage (some "sel") none (some "keep") OStages.none) =
      ["match \x7b", "  selector = \"sel\"", "  action = \"keep\"", "\x7d"] := by
  constructor
  · exact (match_stage_nesting.1 3).2
  · have h := match_stage_nesting.2 (some "sel") none (some "keep")
      (fun a ha => by cases ha; decide)
    rw [h]
    decide
